import Mathlib

/-!
Verification of the frog-proxy repository (an intercepting HTTP/HTTPS
forward proxy) against its natural-language specification.

The Go sources are shallowly embedded: pure fragments become Lean
functions, the handler chains become folds over lists of handler
functions, and the side effects that the claims mention (bytes written
to the client, connections closed, certificates memoized) are made
explicit in the return values.  Each definition carries a comment
pointing at the Go function it embeds.
-/

/-- Model of Go `http.Header`: an association list from header keys to
their value lists.  Go canonicalizes keys inside `Add`/`Set`/`Get`/`Del`;
every call site relevant to the claims already uses the canonical form
("Content-Length", "Transfer-Encoding", ...), so keys are compared as
exact strings. -/
abbrev Header := List (String × List String)

instance {ε α : Type} [DecidableEq ε] [DecidableEq α] : DecidableEq (Except ε α)
  | .ok a, .ok b =>
    if h : a = b then .isTrue (by rw [h]) else .isFalse (by simp [h])
  | .ok _, .error _ => .isFalse (by simp)
  | .error _, .ok _ => .isFalse (by simp)
  | .error a, .error b =>
    if h : a = b then .isTrue (by rw [h]) else .isFalse (by simp [h])

/-- `http.Header.Get`: first value for the key, `none` when absent
(Go returns the empty string then). -/
def headerGet (h : Header) (k : String) : Option String :=
  match h.find? (fun kv => kv.1 == k) with
  | none => none
  | some kv => kv.2.head?

/-- `http.Header.Del`: remove every entry for the key. -/
def headerDel (h : Header) (k : String) : Header :=
  h.filter (fun kv => kv.1 != k)

/-- `http.Header.Set`: replace the entry for the key with a single value. -/
def headerSet (h : Header) (k v : String) : Header :=
  headerDel h k ++ ([(k, [v])] : Header)

/-- `http.Header.Add`: append the value to the entry for the key,
creating the entry when absent. -/
def headerAdd (h : Header) (k v : String) : Header :=
  if (h.find? (fun kv => kv.1 == k)).isSome then
    h.map (fun kv => if kv.1 == k then (kv.1, kv.2 ++ [v]) else kv)
  else
    h ++ ([(k, [v])] : Header)

/-- The parts of `*http.Request` that the frogproxy package reads on the
paths covered by the claims: the method, whether the URL is absolute,
and the URL host. -/
structure Request where
  method : String
  urlIsAbs : Bool
  urlHost : String
deriving DecidableEq, Repr

/-- The parts of `*http.Response` the claims observe.  `bodyId` models
the identity of the `resp.Body` reference: `ServeHTTP` compares the
original body pointer with the one left after the response chain. -/
structure Response where
  statusCode : Nat
  status : String
  header : Header
  body : String
  bodyId : Nat
deriving DecidableEq, Repr

/-- The mutable parts of `*ProxyCtx` that handlers can touch on the
paths covered by the claims (`Error`, and `Resp` which `filterResponse`
updates before each handler). -/
structure Ctx where
  error : Option String
  resp : Option Response
deriving DecidableEq, Repr

def Ctx.init : Ctx := ⟨none, none⟩

/-- A request handler (`ReqHandler.Handle`): receives the possibly-nil
request and the context, returns the new request, an optional canned
response, and the (possibly mutated) context. -/
def ReqHandler := Option Request → Ctx → Option Request × Option Response × Ctx

/-- A response handler (`RespHandler.Handle`): receives the possibly-nil
response and the context, returns the replacement response and the
(possibly mutated) context. -/
def RespHandler := Option Response → Ctx → Option Response × Ctx

/-- The loop body of `ProxyHttpServer.filterRequest` (proxy.go):

    for _, h := range proxy.reqHandlers {
        req, resp = h.Handle(req, ctx)
        if req != nil { break }
    }

Note the source breaks when the returned *request* is non-nil, so the
loop stops after the first handler whenever that handler returns a
non-nil request, regardless of the response. -/
def filterRequestLoop : List ReqHandler → Option Request → Option Response → Ctx →
    Option Request × Option Response × Ctx
  | [], req, resp, ctx => (req, resp, ctx)
  | h :: rest, req, _resp, ctx =>
    match h req ctx with
    | (req', resp', ctx') =>
      if req'.isSome then (req', resp', ctx')
      else filterRequestLoop rest req' resp' ctx'

/-- `ProxyHttpServer.filterRequest` (proxy.go): starts from the inbound
request and a nil response. -/
def filterRequest (handlers : List ReqHandler) (r : Request) (ctx : Ctx) :
    Option Request × Option Response × Ctx :=
  filterRequestLoop handlers (some r) none ctx

/-- `ProxyHttpServer.filterResponse` (proxy.go): every response handler
runs; each sees the current response, and `ctx.Resp` is set to it first. -/
def filterResponse : List RespHandler → Option Response → Ctx → Option Response × Ctx
  | [], resp, ctx => (resp, ctx)
  | h :: rest, resp, ctx =>
    let ctx1 : Ctx := { ctx with resp := resp }
    match h resp ctx1 with
    | (resp', ctx') => filterResponse rest resp' ctx'

/-- `copyHeaders` (proxy.go): when `keepDestHeaders` is false all
destination keys are deleted first, then every source value is added. -/
def copyHeaders (dst src : Header) (keepDestHeaders : Bool) : Header :=
  let dst := if !keepDestHeaders then ([] : Header) else dst
  src.foldl (fun d kv => kv.2.foldl (fun d v => headerAdd d kv.1 v) d) dst

/-- What `ServeHTTP` does to the client connection, as observed by the
claims: delegate to the CONNECT engine, return silently, write an
`http.Error`, or write a response (status, headers, body bytes). -/
inductive ServeOutput
  | connect
  | silent
  | errorResp (code : Nat) (body : String)
  | reply (status : Nat) (header : Header) (body : String)
deriving DecidableEq, Repr

/-- Host used in the 500 message: the source reads `r.URL.Host` from the
request returned by the chain (a nil request there would fault in Go;
no claim exercises that case). -/
def chainHost : Option Request → String
  | some q => q.urlHost
  | none => ""

/-- `ProxyHttpServer.ServeHTTP` (proxy.go), non-CONNECT path.  The
round-tripper `tr` is passed in to model `proxy.Tr`; the source contains
an empty block `if resp == nil { }` after the request chain, so `tr` is
never invoked on this path.  The `text/event-stream` branch only changes
flushing, not the bytes written, and is not modelled. -/
def serveHTTP (reqHandlers : List ReqHandler) (respHandlers : List RespHandler)
    (keepDestinationHeaders : Bool) (tr : Request → Except String Response)
    (r : Request) : ServeOutput :=
  if r.method == "CONNECT" then .connect
  else if !r.urlIsAbs then .silent
  else
    let ctx := Ctx.init
    match filterRequest reqHandlers r ctx with
    | (rr, resp0, ctx) =>
      -- source: `if resp == nil { }` — the block is empty, so the
      -- outbound dispatch through tr never happens here
      let _unusedRoundTripper := tr
      let origBodyId : Option Nat := resp0.map (fun resp => resp.bodyId)
      match filterResponse respHandlers resp0 ctx with
      | (none, ctx) =>
        match ctx.error with
        | some e => .errorResp 500 e
        | none => .errorResp 500 ("error read response " ++ chainHost rr ++ " : response is nil")
      | (some resp, _ctx) =>
        let hdr := if origBodyId != some resp.bodyId then headerDel resp.header "Content-Length"
                   else resp.header
        .reply resp.statusCode (copyHeaders ([] : Header) hdr keepDestinationHeaders) resp.body

/-- `DstHostIs` (dispatcher.go): the returned condition compares
`req.URL.Host` with the given host by string equality. -/
def DstHostIs (host : String) : Request → Ctx → Bool :=
  fun req _ctx => req.urlHost == host

/-- `ConnectActionLiteral` (https.go). -/
inductive ConnectActionLiteral
  | accept
  | reject
  | mitm
  | hijack
deriving DecidableEq, Repr

/-- `ConnectAction` (https.go).  The `TLSConfig` provider field is not
read by any claim and is not modelled. -/
structure ConnectAction where
  action : ConnectActionLiteral
deriving DecidableEq, Repr

/-- `OKConnect` (https.go): action `ConnectAccept`. -/
def OKConnect : ConnectAction := ⟨.accept⟩

/-- `MitmConnect` (https.go): action `ConnectMitm`. -/
def MitmConnect : ConnectAction := ⟨.mitm⟩

/-- A CONNECT handler (`HttpsHandler.HandleConnect`): receives the host
and the context, returns an optional action together with a new host
(the Go return type is `(*ConnectAction, string)`, so the action may be
nil while a host string is still returned). -/
def HttpsHandler := String → Ctx → Option ConnectAction × String

/-- The handler loop of `handleHttps` (https.go):

    todo, host := OKConnect, r.URL.Host
    for i, h := range proxy.httpsHandlers {
        newtodo, newhost := h.HandleConnect(host, ctx)
        if newtodo != nil { todo, host = newtodo, newhost; break }
    }

`todo` and `host` are only reassigned when a handler returns a non-nil
action, and the loop then breaks. -/
def handleHttpsLoop : List HttpsHandler → Ctx → ConnectAction × String → ConnectAction × String
  | [], _, acc => acc
  | h :: rest, ctx, (todo, host) =>
    match h host ctx with
    | (some newtodo, newhost) => (newtodo, newhost)
    | (none, _) => handleHttpsLoop rest ctx (todo, host)

/-- The action selection phase of `handleHttps` (https.go): run the loop
from the defaults `(OKConnect, r.URL.Host)`. -/
def handleHttpsChoose (handlers : List HttpsHandler) (ctx : Ctx) (reqURLHost : String) :
    ConnectAction × String :=
  handleHttpsLoop handlers ctx (OKConnect, reqURLHost)

def crlf : String := "\r\n"

/-- `hasPort` (proxy.go): the regexp `:\d+$` — true iff the string ends
with a colon followed by one or more ASCII digits (Go regexp `\d` is
`[0-9]`). -/
def hasPort (s : String) : Bool :=
  let rev := s.data.reverse
  let ds := rev.takeWhile (fun c => c.isDigit)
  decide (0 < ds.length) && ((rev.drop ds.length).head? == some ':')

/-- `httpError` (https.go): the exact bytes written to the client before
the connection is closed.  Go `len` is the byte length of the error
text. -/
def httpErrorBytes (errText : String) : String :=
  "HTTP/1.1 502 Bad Gateway" ++ crlf ++ "Content-Type: text-plain" ++ crlf ++
    "Content-Length:" ++ toString errText.utf8ByteSize ++ crlf ++ crlf ++ errText

/-- Observable outcome of the `switch todo.Action` in `handleHttps`
(https.go): which host was dialed, what was written to the hijacked
client connection, and whether it was closed.  Actions other than
Accept and Mitm have no case in the source switch. -/
inductive ConnectOutcome
  | acceptDialFailed (dialedHost : String) (written : String) (closed : Bool)
  | acceptEstablished (dialedHost : String) (written : String)
  | mitmStarted (host : String) (written : String)
  | noCase
deriving DecidableEq, Repr

/-- The `switch todo.Action` of `handleHttps` (https.go), with the dial
modelled as a function from the address to success or an error text.
In the Accept case `":80"` is appended when the regexp `hasPort` does
not match; the Mitm case uses `host` as chosen, unmodified.  On dial
failure `httpError` writes a 502 and closes the client connection. -/
def handleHttpsSwitch (todo : ConnectAction) (host : String)
    (connectDial : String → Except String Unit) : ConnectOutcome :=
  match todo.action with
  | .accept =>
    let host := if !hasPort host then host ++ ":80" else host
    match connectDial host with
    | .error e => .acceptDialFailed host (httpErrorBytes e) true
    | .ok _ => .acceptEstablished host ("HTTP/1.1 200 Connection established" ++ crlf ++ crlf)
  | .mitm => .mitmStarted host ("HTTP/1.1 200 OK" ++ crlf ++ crlf)
  | _ => .noCase

/-- `strings.TrimPrefix`: drop `pre` when it is a leading part of `s`. -/
def trimPre (s pre : String) : String :=
  if pre.isPrefixOf s then s.drop pre.length else s

/-- Hex digits of a Nat, as produced by Go `fmt "%x"` (lowercase). -/
def natToHex (n : Nat) : String :=
  ⟨Nat.toDigits 16 n⟩

/-- Modelled from the spec: `newChunkedWriter` is code of this
repository that is not under src/ (only its caller in the MITM loop is).
Per the spec (§4.2 step 7 and the framing block of §6) the body is
streamed through a chunked encoder and terminated with the zero chunk:
each written block of n bytes is framed as the hex size, CRLF, the
bytes, CRLF; `Close` writes the zero chunk `0\r\n`; `io.Copy` delivers
the whole body as one block here. -/
def chunkedEncode (body : String) : String :=
  (if body.length == 0 then "" else natToHex body.utf8ByteSize ++ crlf ++ body ++ crlf) ++
    "0" ++ crlf

/-- What the MITM inner loop writes back over TLS for one response:
the status line, the header block, and the body section (`none` when no
body bytes are written at all). -/
structure MitmWrite where
  statusLine : String
  header : Header
  body : Option String
deriving DecidableEq, Repr

/-- The response serialization step of the MITM inner-request loop in
`handleHttps` (https.go):

    text := resp.Status; statusCode := strconv.Itoa(resp.StatusCode)
    text = strings.TrimPrefix(text, statusCode)
    write "HTTP/1.1 " + statusCode + text + "\r\n"
    if method != HEAD { Del Content-Length; Set Transfer-Encoding chunked }
    Set Connection close
    write headers; write "\r\n"
    if method != HEAD { copy body through newChunkedWriter; Close; write "\r\n" }

`reqMethod` is `resp.Request.Method` in the source. -/
def mitmWriteResponse (resp : Response) (reqMethod : String) : MitmWrite :=
  let statusCode := toString resp.statusCode
  let text := trimPre resp.status statusCode
  let hdr := if reqMethod == "HEAD" then resp.header
             else headerSet (headerDel resp.header "Content-Length") "Transfer-Encoding" "chunked"
  let hdr := headerSet hdr "Connection" "close"
  { statusLine := "HTTP/1.1 " ++ statusCode ++ text ++ crlf
    header := hdr
    body := if reqMethod == "HEAD" then none else some (chunkedEncode resp.body ++ crlf) }

/-!  The transport package (the keep-alive HTTP transport).  -/

/-- `strings.LastIndex(s, c)` for a one-character needle, as an `Int`
(`-1` when absent).  The sources only use it with the ASCII needles
":" and "]", for which byte and character indices coincide on the
addresses the claims quantify over. -/
def lastIdx (s : String) (c : Char) : Int :=
  match s.data.reverse.findIdx? (fun x => x == c) with
  | none => -1
  | some i => ((s.data.length - 1 - i : Nat) : Int)

/-- `hasPort` (transport/util.go):
`strings.LastIndex(addr, ":") > strings.LastIndex(addr, "]")`. -/
def transportHasPort (addr : String) : Bool :=
  lastIdx addr ':' > lastIdx addr ']'

/-- `addr[:strings.LastIndex(addr, ":")]`: the part before the last
colon (used to strip the port; only reached when a colon is present). -/
def dropFromLastColon (s : String) : String :=
  match s.data.reverse.findIdx? (fun x => x == ':') with
  | none => s
  | some i => ⟨s.data.take (s.data.length - 1 - i)⟩

/-- Model of `net.SplitHostPort` restricted to addresses without square
brackets (no claim involves a bracketed IPv6 literal): split at the last
colon; error (`none`) when there is no colon or the host part itself
contains one. -/
def splitHostPort (addr : String) : Option (String × String) :=
  if addr.data.contains '[' || addr.data.contains ']' then none
  else
    match addr.data.reverse.findIdx? (fun c => c == ':') with
    | none => none
    | some i =>
      let n := addr.data.length - 1 - i
      let host := addr.data.take n
      let port := addr.data.drop (n + 1)
      if host.contains ':' then none else some (⟨host⟩, ⟨port⟩)

/-- ASCII lowercase of a string, modelling `strings.ToLower` on the
ASCII host names the claims quantify over (Go lowercases with Unicode
tables; they agree on ASCII). -/
def strLower (s : String) : String :=
  ⟨s.data.map Char.toLower⟩

/-- Whitespace trim of a string, modelling `strings.TrimSpace` on ASCII
input. -/
def strTrim (s : String) : String :=
  ⟨((s.data.dropWhile Char.isWhitespace).reverse.dropWhile Char.isWhitespace).reverse⟩

/-- Split a character list at every occurrence of the separator. -/
def splitOnChar (c : Char) : List Char → List (List Char)
  | [] => [[]]
  | x :: xs =>
    let r := splitOnChar c xs
    if x == c then [] :: r
    else
      match r with
      | [] => [[x]]
      | y :: ys => (x :: y) :: ys

/-- `strings.Split(s, ",")`: the comma-separated pieces (one empty piece
for the empty string, like Go). -/
def strSplitComma (s : String) : List String :=
  (splitOnChar ',' s.data).map (fun l => ⟨l⟩)

/-- One `NO_PROXY` entry test, inlined in the loop of `useProxy`
(transport.go): trim and lowercase the entry, skip it when empty, strip
a port, then match the (already stripped and lowercased) address either
exactly, or — when the entry starts with a dot — as a suffix or as the
entry without its leading dot. -/
def entryMatches (addr p0 : String) : Option Bool :=
  let p := strLower (strTrim p0)
  if p.length == 0 then none
  else
    let p := if transportHasPort p then dropFromLastColon p else p
    some (addr == p ||
      (p.data.head? == some '.' && (p.data.isSuffixOf addr.data || addr == ⟨p.data.drop 1⟩)))

/-- The entry loop of `useProxy` (transport.go): return false on the
first matching entry, true when none matches (`none` from
`entryMatches` is the `continue` on an empty entry). -/
def noProxyLoop (addr : String) : List String → Bool
  | [] => true
  | p :: rest =>
    match entryMatches addr p with
    | none => noProxyLoop addr rest
    | some true => false
    | some false => noProxyLoop addr rest

/-- The request-host key the `NO_PROXY` entries are matched against
(useProxy, transport.go): the address trimmed, lowercased and with the
port stripped when the transport `hasPort` test matches. -/
def hostKey (addr : String) : String :=
  let a := strLower (strTrim addr)
  if transportHasPort a then dropFromLastColon a else a

/-- `useProxy` (transport.go).  The environment read
`getenvEitherCase("NO_PROXY")` is passed in as `noProxy`; the Go test
`ip := net.ParseIP(host); ip != nil && ip.IsLoopback()` delegates to the
net library and is passed in as the predicate `isLoopback`.  Go
lowercases with Unicode rules and trims Unicode space; the Lean `toLower`
and `trim` agree with them on the ASCII host names of the claims. -/
def useProxy (isLoopback : String → Bool) (noProxy : String) (addr : String) : Bool :=
  if addr.length == 0 then true
  else
    match splitHostPort addr with
    | none => false
    | some (host, _) =>
      if host == "localhost" then false
      else if isLoopback host then false
      else if noProxy == "*" then false
      else
        noProxyLoop (hostKey addr) (strSplitComma noProxy)

/-- `DefaultMaxIdleConnsPerHost` (transport.go). -/
def DefaultMaxIdleConnsPerHost : Int := 2

/-- The fields of `persistConn` that the idle pool reads: an identity,
the cache key, and the `broken` flag (read under the connection mutex in
the source; pool operations only read it). -/
structure PoolConn where
  id : Nat
  cacheKey : String
  broken : Bool
deriving DecidableEq, Repr

/-- The fields of `Transport` that drive the pool policy. -/
structure TransportCfg where
  disableKeepAlives : Bool
  maxIdleConnsPerHost : Int
deriving DecidableEq, Repr

/-- `Transport.idleConn`: the map from cache key to the ordered queue of
idle connections, as an association list; an absent key and an empty
queue are identified. -/
abbrev IdlePool := List (String × List PoolConn)

def poolLookup (pool : IdlePool) (key : String) : List PoolConn :=
  match pool.find? (fun kv => kv.1 == key) with
  | none => []
  | some kv => kv.2

def poolSet (pool : IdlePool) (key : String) (conns : List PoolConn) : IdlePool :=
  if (pool.find? (fun kv => kv.1 == key)).isSome then
    pool.map (fun kv => if kv.1 == key then (kv.1, conns) else kv)
  else
    pool ++ [(key, conns)]

/-- The effective per-key bound of the idle pool: the source replaces a
zero `MaxIdleConnsPerHost` by `DefaultMaxIdleConnsPerHost`. -/
def effectiveMaxIdle (t : TransportCfg) : Int :=
  if t.maxIdleConnsPerHost == 0 then DefaultMaxIdleConnsPerHost else t.maxIdleConnsPerHost

/-- Result of `Transport.putIdleConn`: the boolean the source returns,
the new pool, and whether `pconn.close()` was called. -/
structure PutResult where
  accepted : Bool
  pool : IdlePool
  closedConn : Bool
deriving DecidableEq, Repr

/-- `Transport.putIdleConn` (transport.go):

    if t.DisableKeepAlives || t.MaxIdleConnsPerHost < 0 { pconn.close(); return false }
    if pconn.isBroken() { return false }
    max := t.MaxIdleConnsPerHost; if max == 0 { max = DefaultMaxIdleConnsPerHost }
    if len(t.idleConn[key]) >= max { pconn.close(); return false }
    t.idleConn[key] = append(t.idleConn[key], pconn); return true -/
def putIdleConn (t : TransportCfg) (pool : IdlePool) (pconn : PoolConn) : PutResult :=
  if t.disableKeepAlives || t.maxIdleConnsPerHost < 0 then ⟨false, pool, true⟩
  else if pconn.broken then ⟨false, pool, false⟩
  else
    let key := pconn.cacheKey
    let mx := effectiveMaxIdle t
    if ((poolLookup pool key).length : Int) ≥ mx then ⟨false, pool, true⟩
    else ⟨true, poolSet pool key (poolLookup pool key ++ [pconn]), false⟩

/-- The retry loop of `Transport.getIdleConn` (transport.go) takes the
last element of the per-key queue (deleting the key when the queue was a
singleton) and retries while the popped connection is broken; taking
from the end of the queue is modelled as taking from the head of the
reversed queue. -/
def popIdle : List PoolConn → Option PoolConn × List PoolConn
  | [] => (none, [])
  | c :: rest => if !c.broken then (some c, rest) else popIdle rest

/-- `Transport.getIdleConn` (transport.go): pop from the end of the
queue under the key until a non-broken connection is found; return it
(or `none`) together with the remaining pool. -/
def getIdleConn (pool : IdlePool) (key : String) : Option PoolConn × IdlePool :=
  match popIdle (poolLookup pool key).reverse with
  | (r, rest) => (r, poolSet pool key rest.reverse)

/-- The pool invariant of the spec: every pooled connection is not
broken and every per-key queue respects the effective bound. -/
def poolConnsOk (mx : Int) (pool : IdlePool) : Prop :=
  ∀ kv ∈ pool, (∀ c ∈ kv.2, c.broken = false) ∧ ((kv.2.length : Int) ≤ mx)

/-!  The read loop and round trip of `persistConn` (transport.go).  -/

/-- A response body as it sits on the wire when `http.ReadResponse`
returns: either plain bytes, or a well-formed gzip stream carrying both
its raw bytes and its decoded content, or bytes that fail to parse as a
gzip stream. -/
inductive WireBody
  | plain (bytes : List Nat)
  | gzipStream (raw decoded : List Nat)
  | badGzip (raw : List Nat)
deriving DecidableEq, Repr

/-- `gzip.NewReader(resp.Body)` followed by reading it to the end: the
decoded bytes on a well-formed stream, an error otherwise. -/
def gzipNewReader : WireBody → Except String (List Nat)
  | .gzipStream _ decoded => .ok decoded
  | _ => .error "gzip: invalid header"

/-- The body handed to the caller of `roundTrip`: the source always
wraps it in a `bodyEOFSignal`; in the gzip case it additionally wraps a
`readFirstCloseBoth` around a `discardOnCloseReadCloser` around the gzip
reader.  The constructor records which of the two shapes was built and
the bytes a full read of the body yields. -/
inductive DeliveredBody
  | direct (w : WireBody)
  | gunzipped (decoded : List Nat)
deriving DecidableEq, Repr

/-- The bytes a caller obtains by reading the delivered body to EOF
(for a `direct` body over a gzip stream these are the raw, still
compressed bytes). -/
def bodyReads : DeliveredBody → List Nat
  | .direct (.plain bytes) => bytes
  | .direct (.gzipStream raw _) => raw
  | .direct (.badGzip raw) => raw
  | .gunzipped decoded => decoded

/-- The fields of the request that `readLoop` consults. -/
structure TranReq where
  method : String
  close : Bool
deriving DecidableEq, Repr

/-- The response as parsed from the wire by `http.ReadResponse`. -/
structure RawResp where
  header : Header
  contentLength : Int
  close : Bool
  body : WireBody
deriving DecidableEq, Repr

/-- The response as delivered on the reply channel. -/
structure TranResp where
  header : Header
  contentLength : Int
  close : Bool
  body : DeliveredBody
deriving DecidableEq, Repr

/-- The per-response transformation inside `persistConn.readLoop`
(transport.go, success branch of `http.ReadResponse`):

    hasBody := rc.req.Method != "HEAD" && resp.ContentLength != 0
    if rc.addedGzip && hasBody && resp.Header.Get("Content-Encoding") == "gzip" {
        resp.Header.Del("Content-Encoding"); resp.Header.Del("Content-Length")
        resp.ContentLength = -1
        gzReader, zerr := gzip.NewReader(resp.Body)
        if zerr != nil { pc.close(); err = zerr }
        else { resp.Body = &readFirstCloseBoth{&discardOnCloseReadCloser{gzReader}, resp.Body} }
    }
    resp.Body = &bodyEOFSignal{body: resp.Body}

Returns the response delivered on the channel and the error from the
gzip step (the headers are already stripped when the gzip reader fails,
exactly as in the source). -/
def readLoopTransform (addedGzip : Bool) (req : TranReq) (resp : RawResp) :
    TranResp × Option String :=
  let hasBody := req.method != "HEAD" && resp.contentLength != 0
  if addedGzip && hasBody && headerGet resp.header "Content-Encoding" == some "gzip" then
    let hdr := headerDel (headerDel resp.header "Content-Encoding") "Content-Length"
    match gzipNewReader resp.body with
    | .error zerr => (⟨hdr, -1, resp.close, .direct resp.body⟩, some zerr)
    | .ok decoded => (⟨hdr, -1, resp.close, .gunzipped decoded⟩, none)
  else
    (⟨resp.header, resp.contentLength, resp.close, .direct resp.body⟩, none)

/-- One item received from `pc.reqch`, paired with what
`http.ReadResponse` yields for it on the wire. -/
structure LoopItem where
  req : TranReq
  addedGzip : Bool
  wire : Except String RawResp
deriving DecidableEq, Repr

/-- One value sent on the reply channel `rc.ch`: the (possibly nil)
response and the (possibly nil) error. -/
structure Delivery where
  resp : Option TranResp
  err : Option String
deriving DecidableEq, Repr

/-- The `for alive` loop of `persistConn.readLoop` (transport.go),
processing the pending requests in order.  On a read error the
connection is closed and `alive` becomes false; otherwise `alive`
becomes false when the gzip step errored, the response asks to close,
or the request asked to close.  The idle-pool return performed inside
the body-drain callback is modelled separately by `putIdleConn` and
does not change the delivered values. -/
def readLoopGo : Bool → List LoopItem → List Delivery
  | false, _ => []
  | true, [] => []
  | true, item :: rest =>
    match item.wire with
    | .error e => ⟨none, some e⟩ :: readLoopGo false rest
    | .ok raw =>
      match readLoopTransform item.addedGzip item.req raw with
      | (dresp, zerr) =>
        let alive := !(zerr.isSome || raw.close || item.req.close)
        ⟨some dresp, zerr⟩ :: readLoopGo alive rest

/-- `persistConn.readLoop` (transport.go).  The source initializes

    alive := false

before `for alive { ... }`, so the loop body never runs. -/
def readLoop (items : List LoopItem) : List Delivery :=
  readLoopGo false items

/-- The gzip request preparation of `persistConn.roundTrip`
(transport.go): `Accept-Encoding: gzip` is added (and the flag set) iff
compression is not disabled and the caller did not set the header. -/
def roundTripRequestedGzip (disableCompression : Bool) (reqHeader : Header) : Bool :=
  !disableCompression && (headerGet reqHeader "Accept-Encoding" == none)

/-!  The certificate storage of examples/certstorage (storage.go).  -/

/-- The cache of `CertStorage`: a map from hostname to certificate,
modelled as an association list (`sync.Map` with sequential use). -/
abbrev CertCache := List (String × Nat)

def certLookup (cache : CertCache) (host : String) : Option Nat :=
  match cache.find? (fun kv => kv.1 == host) with
  | none => none
  | some kv => some kv.2

/-- `CertStorage.Fetch` (examples/certstorage/storage.go):

    icert, ok := tcs.certs.Load(host)
    if ok { cert = icert.(tls.Certificate) }
    else {
        certp, err := gen()
        if err != nil { return nil, err }
        cert = *certp; tcs.certs.Store(host, cert)
    }
    return &cert, nil

Certificates are modelled by an identity; `gen` is the generator result
(the same on every call, standing for a deterministic generator).
Returns the fetch result, the cache afterwards, and whether `gen` was
called. -/
def certFetch (cache : CertCache) (host : String) (gen : Except String Nat) :
    Except String Nat × CertCache × Bool :=
  match certLookup cache host with
  | some cert => (.ok cert, cache, false)
  | none =>
    match gen with
    | .error e => (.error e, cache, true)
    | .ok cert => (.ok cert, cache ++ [(host, cert)], true)

/-- `k` sequential calls of `CertStorage.Fetch` for the same hostname
and generator; returns the final cache and the number of times `gen`
was invoked. -/
def certFetchN : Nat → CertCache → String → Except String Nat → CertCache × Nat
  | 0, cache, _, _ => (cache, 0)
  | k + 1, cache, host, gen =>
    match certFetch cache host gen with
    | (_, cache1, called) =>
      match certFetchN k cache1 host gen with
      | (cache2, n) => (cache2, (if called then 1 else 0) + n)

/-!  Concrete fixtures used by the counterexample evaluations and the
witnesses.  -/

/-- A plain forward request: `GET http://example.com/` through the
proxy, with an absolute URL. -/
def c1Request : Request := ⟨"GET", true, "example.com"⟩

/-- An upstream that answers 200 with body "hello" to every request
(what the round-tripper would return if it were invoked). -/
def c1Upstream : Request → Except String Response :=
  fun _ => .ok ⟨200, "200 OK", [("Content-Type", ["text/plain"])], "hello", 1⟩

/-- Recognizer for the client outcome the spec expects in the
pass-through scenario: status 200 with body "hello". -/
def isReply200Hello : ServeOutput → Bool
  | .reply 200 _ "hello" => true
  | _ => false

def c2req : Request := ⟨"GET", true, "www.reddit.com"⟩

def c2resp : Response := ⟨403, "403 Forbidden", [], "No Reddit at work time", 7⟩

/-- A pass-through request handler: returns the request unchanged and a
nil response (the shape of every logging or header-rewriting handler). -/
def c2h1 : ReqHandler := fun req ctx => (req, none, ctx)

/-- A canning request handler: returns a non-nil response, and marks the
context so that its invocation is observable. -/
def c2h2 : ReqHandler := fun req ctx => (req, some c2resp, { ctx with error := some "h2 ran" })

def c3HelloBytes : List Nat := [104, 101, 108, 108, 111]

/-- An upstream response whose body is a well-formed gzip stream
decoding to "hello", with the gzip content headers set. -/
def c3Raw : RawResp :=
  { header := [("Content-Encoding", ["gzip"]), ("Content-Length", ["25"])]
    contentLength := 25
    close := false
    body := .gzipStream [31, 139, 8, 0, 1, 2, 3] c3HelloBytes }

/-- The pending round trip matching `c3Raw`: a GET on a persistent
connection where the transport auto-added `Accept-Encoding: gzip`. -/
def c3Item : LoopItem := ⟨⟨"GET", false⟩, true, .ok c3Raw⟩

/-- A MITM inner response carrying a Content-Length header and a short
body, as handed to the serialization step. -/
def c5resp : Response :=
  ⟨200, "200 OK", [("Content-Length", ["5"]), ("Content-Type", ["text/plain"])], "hello", 3⟩

/-- `AlwaysMitm` (dispatcher.go): a CONNECT handler returning
`(MitmConnect, host)`. -/
def AlwaysMitm : HttpsHandler := fun host _ctx => (some MitmConnect, host)

/-- A CONNECT handler that declines: nil action (the shape produced by
the condition wrapper of `ReqProxyConds.HandleConnect` when a condition
fails, which returns `nil, ""`). -/
def declineConnect : HttpsHandler := fun _ _ => (none, "")

/-!  Theorems settling the claims.  -/

/-- C1: the claim says that for a non-CONNECT request with an absolute
URL whose handler chain produced no response, `ServeHTTP` performs the
outbound request via the round-tripper and copies the upstream response
(200, body "hello") to the client.  In the source the `if resp == nil`
block is empty, so the round-tripper is never invoked on this path:
with no handlers registered the client receives a 500 "response is nil"
error instead of the upstream 200 "hello". -/
theorem serveHTTP_forward_never_roundtrips :
    serveHTTP [] [] false c1Upstream c1Request =
      .errorResp 500 "error read response example.com : response is nil"
    ∧ isReply200Hello (serveHTTP [] [] false c1Upstream c1Request) = false := by
  constructor <;> rfl

/-- C2: the claim says the request chain continues past a handler that
returns a null response and stops exactly on a non-null response.  The
source breaks when the returned *request* is non-nil, so after the
pass-through handler `c2h1` (null response, non-nil request) the
canning handler `c2h2` is never invoked: the chain result carries no
response and no trace of `c2h2`, while `c2h2` alone does produce its
response. -/
theorem filterRequest_stops_on_nonnil_request :
    filterRequest [c2h1, c2h2] c2req Ctx.init = (some c2req, none, Ctx.init)
    ∧ filterRequest [c2h2] c2req Ctx.init =
        (some c2req, some c2resp, ⟨some "h2 ran", none⟩) := by
  constructor <;> rfl

/-- C3: the claim says the read loop delivers to the caller a response
whose body yields the gzip-decoded bytes with the encoding headers
stripped and `ContentLength = -1`.  The source initializes
`alive := false` before `for alive`, so the loop body never runs and
nothing is ever delivered; the per-response transformation itself (the
loop body, second conjunct) would deliver exactly the response the
claim describes if the loop were entered. -/
theorem readLoop_never_delivers :
    readLoop [c3Item] = []
    ∧ readLoopGo true [c3Item] =
        [⟨some ⟨[], -1, false, .gunzipped c3HelloBytes⟩, none⟩]
    ∧ bodyReads (.gunzipped c3HelloBytes) = c3HelloBytes
    ∧ roundTripRequestedGzip false [] = true := by
  refine ⟨rfl, ?_, rfl, rfl⟩
  rfl

/-- Handlers that all return a nil action leave the loop state
untouched; the loop proceeds into the remaining handlers with the same
accumulated `(todo, host)`. -/
theorem handleHttpsLoop_skip_none (hs1 rest : List HttpsHandler) (ctx : Ctx)
    (todo : ConnectAction) (host : String)
    (hnone : ∀ g ∈ hs1, (g host ctx).1 = none) :
    handleHttpsLoop (hs1 ++ rest) ctx (todo, host) = handleHttpsLoop rest ctx (todo, host) := by
  induction hs1 with
  | nil => rfl
  | cons g gs ih =>
    have hg : (g host ctx).1 = none := hnone g (List.mem_cons_self g gs)
    simp only [List.cons_append, handleHttpsLoop]
    cases hgp : g host ctx with
    | mk fst snd =>
      cases fst with
      | none =>
        exact ih (fun g' hg' => hnone g' (List.mem_cons_of_mem g hg'))
      | some a =>
        rw [hgp] at hg
        simp at hg

/-- C4: for every CONNECT request, `handleHttps` iterates the CONNECT
handlers in registration order, adopts the `(action, host)` pair of the
first handler returning a non-nil action and stops there (handlers
after it — `hs2` — never influence the result); when no handler returns
a non-nil action the chosen pair is `(OKConnect, r.URL.Host)`, i.e.
Accept with the host from the request URL. -/
theorem handleHttps_first_action_wins (hs1 hs2 : List HttpsHandler) (h : HttpsHandler)
    (ctx : Ctx) (reqHost newHost : String) (a : ConnectAction)
    (hnone : ∀ g ∈ hs1, (g reqHost ctx).1 = none)
    (hsome : h reqHost ctx = (some a, newHost)) :
    handleHttpsChoose (hs1 ++ h :: hs2) ctx reqHost = (a, newHost)
    ∧ ∀ hs : List HttpsHandler, (∀ g ∈ hs, (g reqHost ctx).1 = none) →
        handleHttpsChoose hs ctx reqHost = (OKConnect, reqHost) := by
  constructor
  · rw [handleHttpsChoose, handleHttpsLoop_skip_none hs1 (h :: hs2) ctx OKConnect reqHost hnone]
    simp only [handleHttpsLoop]
    rw [hsome]
  · intro hs hns
    have := handleHttpsLoop_skip_none hs [] ctx OKConnect reqHost hns
    rw [List.append_nil] at this
    rw [handleHttpsChoose, this]
    rfl

/-- Witness for C4: with a declining handler first, `AlwaysMitm` second
and another handler third, the chosen pair is the one returned by
`AlwaysMitm`; with only declining handlers the default is
`(OKConnect, host)`. -/
theorem handleHttps_first_action_wins_witness :
    handleHttpsChoose [declineConnect, AlwaysMitm, declineConnect] Ctx.init "example.com:443"
      = (MitmConnect, "example.com:443")
    ∧ handleHttpsChoose [declineConnect] Ctx.init "example.com:443"
      = (OKConnect, "example.com:443") := by
  have h := handleHttps_first_action_wins [declineConnect] [declineConnect] AlwaysMitm
    Ctx.init "example.com:443" "example.com:443" MitmConnect
    (by
      intro g hg
      rw [List.mem_singleton] at hg
      rw [hg]
      rfl)
    rfl
  exact ⟨h.1, h.2 [declineConnect] (by
    intro g hg
    rw [List.mem_singleton] at hg
    rw [hg]
    rfl)⟩

/-- Filtering by a predicate every match of the search already
satisfies does not change the result of the search. -/
theorem find?_filter_of_imp {α : Type} (l : List α) (p q : α → Bool)
    (hpq : ∀ a, q a = true → p a = true) :
    (l.filter p).find? q = l.find? q := by
  induction l with
  | nil => rfl
  | cons a rest ih =>
    by_cases hq : q a = true
    · have hp := hpq a hq
      simp [List.filter_cons, hp, List.find?_cons, hq]
    · have hq' : q a = false := by
        cases hqa : q a with
        | false => rfl
        | true => exact absurd hqa hq
      by_cases hp : p a = true
      · simp [List.filter_cons, hp, List.find?_cons, hq', ih]
      · have hp' : p a = false := by
          cases hpa : p a with
          | false => rfl
          | true => exact absurd hpa hp
        simp [List.filter_cons, hp', List.find?_cons, hq', ih]

/-- Deleting a header key makes `Get` of that key return nothing. -/
theorem headerGet_del_same (h : Header) (k : String) :
    headerGet (headerDel h k) k = none := by
  unfold headerGet
  have hfind : (headerDel h k).find? (fun kv => kv.1 == k) = none := by
    rw [List.find?_eq_none]
    intro kv hkv
    have hm := (List.mem_filter).1 hkv
    intro hbeq
    have h1 : kv.1 = k := by
      exact beq_iff_eq.1 hbeq
    have h2 : kv.1 ≠ k := bne_iff_ne.1 hm.2
    exact h2 h1
  rw [hfind]

/-- Deleting one key leaves `Get` of a different key unchanged. -/
theorem headerGet_del_ne (h : Header) (k k' : String) (hne : k' ≠ k) :
    headerGet (headerDel h k) k' = headerGet h k' := by
  unfold headerGet headerDel
  rw [find?_filter_of_imp]
  intro kv hkv
  have h1 : kv.1 = k' := beq_iff_eq.1 hkv
  rw [bne_iff_ne]
  rw [h1]
  exact hne

/-- After `Set k v`, `Get k` returns exactly `v`. -/
theorem headerGet_set_same (h : Header) (k v : String) :
    headerGet (headerSet h k v) k = some v := by
  unfold headerSet headerGet
  rw [List.find?_append]
  have hfind : (headerDel h k).find? (fun kv => kv.1 == k) = none := by
    rw [List.find?_eq_none]
    intro kv hkv
    have hm := (List.mem_filter).1 hkv
    intro hbeq
    exact (bne_iff_ne.1 hm.2) (beq_iff_eq.1 hbeq)
  rw [hfind]
  simp [List.find?_cons]

/-- After `Set k v`, `Get` of a different key is unchanged. -/
theorem headerGet_set_ne (h : Header) (k v k' : String) (hne : k' ≠ k) :
    headerGet (headerSet h k v) k' = headerGet h k' := by
  have hlast : (([(k, [v])] : Header).find? (fun kv => kv.1 == k')) = none := by
    rw [List.find?_eq_none]
    intro kv hkv
    rw [List.mem_singleton] at hkv
    rw [hkv]
    intro hbeq
    exact hne (beq_iff_eq.1 hbeq).symm
  rw [← headerGet_del_ne h k k' hne]
  unfold headerSet headerGet
  rw [List.find?_append, hlast, Option.or_none]

/-- C5: for a MITM inner response written back over TLS, a non-HEAD
method gets its headers re-framed — Content-Length deleted,
Transfer-Encoding set to "chunked", Connection set to "close" — and the
body streamed through the chunked encoder with the zero-chunk
terminator; a HEAD method gets the headers without re-framing (only
Connection set to "close") and no body bytes at all. -/
theorem mitmWriteResponse_framing (resp : Response) (m : String) :
    (m ≠ "HEAD" →
      headerGet (mitmWriteResponse resp m).header "Content-Length" = none
      ∧ headerGet (mitmWriteResponse resp m).header "Transfer-Encoding" = some "chunked"
      ∧ headerGet (mitmWriteResponse resp m).header "Connection" = some "close"
      ∧ (mitmWriteResponse resp m).body = some (chunkedEncode resp.body ++ crlf)
      ∧ ("0" ++ crlf ++ crlf).data <:+ (chunkedEncode resp.body ++ crlf).data)
    ∧ (m = "HEAD" →
      (mitmWriteResponse resp m).header = headerSet resp.header "Connection" "close"
      ∧ (mitmWriteResponse resp m).body = none) := by
  constructor
  · intro hm
    have hbeq : (m == "HEAD") = false := by
      cases hb : m == "HEAD" with
      | false => rfl
      | true => exact absurd (beq_iff_eq.1 hb) hm
    have hhdr : (mitmWriteResponse resp m).header =
        headerSet (headerSet (headerDel resp.header "Content-Length")
          "Transfer-Encoding" "chunked") "Connection" "close" := by
      unfold mitmWriteResponse
      rw [hbeq]
      simp
    have hbody : (mitmWriteResponse resp m).body = some (chunkedEncode resp.body ++ crlf) := by
      unfold mitmWriteResponse
      rw [hbeq]
      simp
    refine ⟨?_, ?_, ?_, hbody, ?_⟩
    · rw [hhdr, headerGet_set_ne _ _ _ _ (by decide), headerGet_set_ne _ _ _ _ (by decide),
        headerGet_del_same]
    · rw [hhdr, headerGet_set_ne _ _ _ _ (by decide), headerGet_set_same]
    · rw [hhdr, headerGet_set_same]
    · refine ⟨(if resp.body.length == 0 then "" else
        natToHex resp.body.utf8ByteSize ++ crlf ++ resp.body ++ crlf).data, ?_⟩
      unfold chunkedEncode
      simp [String.data_append, List.append_assoc]
  · intro hm
    subst hm
    constructor
    · rfl
    · rfl

/-- Witness for C5: the framing theorem applied at a concrete response,
once with method GET (discharging the non-HEAD hypothesis) and once
with method HEAD. -/
theorem mitmWriteResponse_framing_witness :
    (headerGet (mitmWriteResponse c5resp "GET").header "Content-Length" = none
      ∧ headerGet (mitmWriteResponse c5resp "GET").header "Transfer-Encoding" = some "chunked"
      ∧ headerGet (mitmWriteResponse c5resp "GET").header "Connection" = some "close")
    ∧ (mitmWriteResponse c5resp "HEAD").body = none := by
  have h1 := (mitmWriteResponse_framing c5resp "GET").1 (by decide)
  have h2 := (mitmWriteResponse_framing c5resp "HEAD").2 rfl
  exact ⟨⟨h1.1, h1.2.1, h1.2.2.1⟩, h2.2⟩

/-- C6: in the Accept (splice) branch of `handleHttps` a host that the
port regexp does not match gets ":80" appended before dialing, a host
with a port is dialed unchanged, and the Mitm branch never appends a
port; when the dial fails the client is sent the `httpError` bytes — an
HTTP/1.1 502 Bad Gateway whose body is the error text — and the
connection is closed. -/
theorem handleHttps_accept_port_and_dial_error (host e : String)
    (connectDial : String → Except String Unit) :
    (hasPort host = false → connectDial (host ++ ":80") = .ok () →
      handleHttpsSwitch OKConnect host connectDial =
        .acceptEstablished (host ++ ":80") ("HTTP/1.1 200 Connection established" ++ crlf ++ crlf))
    ∧ (hasPort host = false → connectDial (host ++ ":80") = .error e →
      handleHttpsSwitch OKConnect host connectDial =
        .acceptDialFailed (host ++ ":80") (httpErrorBytes e) true)
    ∧ (hasPort host = true → connectDial host = .error e →
      handleHttpsSwitch OKConnect host connectDial =
        .acceptDialFailed host (httpErrorBytes e) true)
    ∧ handleHttpsSwitch MitmConnect host connectDial =
        .mitmStarted host ("HTTP/1.1 200 OK" ++ crlf ++ crlf)
    ∧ ("HTTP/1.1 502 Bad Gateway").data <+: (httpErrorBytes e).data
    ∧ e.data <:+ (httpErrorBytes e).data := by
  refine ⟨?_, ?_, ?_, rfl, ?_, ?_⟩
  · intro hp hd
    unfold handleHttpsSwitch OKConnect
    simp [hp, hd]
  · intro hp hd
    unfold handleHttpsSwitch OKConnect
    simp [hp, hd]
  · intro hp hd
    unfold handleHttpsSwitch OKConnect
    simp [hp, hd]
  · refine ⟨(crlf ++ "Content-Type: text-plain" ++ crlf ++
      "Content-Length:" ++ toString e.utf8ByteSize ++ crlf ++ crlf ++ e).data, ?_⟩
    unfold httpErrorBytes
    simp [List.append_assoc]
  · refine ⟨("HTTP/1.1 502 Bad Gateway" ++ crlf ++ "Content-Type: text-plain" ++ crlf ++
      "Content-Length:" ++ toString e.utf8ByteSize ++ crlf ++ crlf).data, ?_⟩
    unfold httpErrorBytes
    simp [List.append_assoc]

/-- Witness for C6: a port-less host is dialed with ":80" appended when
the dial succeeds, and a host with a port is dialed unchanged with the
502 error bytes written when the dial fails. -/
theorem handleHttps_accept_port_and_dial_error_witness :
    handleHttpsSwitch OKConnect "example.com" (fun _ => .ok ()) =
      .acceptEstablished "example.com:80" ("HTTP/1.1 200 Connection established" ++ crlf ++ crlf)
    ∧ handleHttpsSwitch OKConnect "example.com:443" (fun _ => .error "connection refused") =
      .acceptDialFailed "example.com:443" (httpErrorBytes "connection refused") true
    ∧ handleHttpsSwitch MitmConnect "example.com" (fun _ => .ok ()) =
      .mitmStarted "example.com" ("HTTP/1.1 200 OK" ++ crlf ++ crlf) := by
  refine ⟨?_, ?_, ?_⟩
  · exact (handleHttps_accept_port_and_dial_error "example.com" "x"
      (fun _ => .ok ())).1 (by decide) rfl
  · exact (handleHttps_accept_port_and_dial_error "example.com:443" "connection refused"
      (fun _ => .error "connection refused")).2.2.1 (by decide) rfl
  · exact (handleHttps_accept_port_and_dial_error "example.com" "x"
      (fun _ => .ok ())).2.2.2.1

/-- C7: `DstHostIs h` holds exactly when the request URL host equals `h`
as a string (hence case-sensitively), and in particular
`DstHostIs "a"` does not hold for a request whose URL host is "a:80". -/
theorem DstHostIs_exact_match (h : String) (req : Request) (ctx : Ctx) :
    (DstHostIs h req ctx = true ↔ req.urlHost = h)
    ∧ DstHostIs "a" ⟨"GET", true, "a:80"⟩ Ctx.init = false
    ∧ DstHostIs "a" ⟨"GET", true, "A"⟩ Ctx.init = false := by
  refine ⟨?_, rfl, rfl⟩
  unfold DstHostIs
  exact ⟨fun hb => beq_iff_eq.1 hb, fun he => beq_iff_eq.2 he⟩

/-- A nonempty string fails the `len(addr) == 0` test. -/
theorem strLen_beq_zero_false (s : String) (h : s ≠ "") : (s.length == 0) = false := by
  cases hb : s.length == 0 with
  | false => rfl
  | true =>
    have h0 : s.length = 0 := beq_iff_eq.1 hb
    have hd : s.data = [] := List.length_eq_zero.1 h0
    apply absurd _ h
    cases s with
    | mk data => simp_all

/-- The entry loop returns false as soon as some entry matches. -/
theorem noProxyLoop_false_of_match (addr : String) (l : List String)
    (hm : ∃ p ∈ l, entryMatches addr p = some true) :
    noProxyLoop addr l = false := by
  induction l with
  | nil =>
    obtain ⟨p, hp, _⟩ := hm
    exact absurd hp (List.not_mem_nil p)
  | cons q rest ih =>
    obtain ⟨p, hp, hmp⟩ := hm
    rw [List.mem_cons] at hp
    unfold noProxyLoop
    cases hp with
    | inl h =>
      subst h
      rw [hmp]
    | inr h =>
      cases hq : entryMatches addr q with
      | none => exact ih ⟨p, h, hmp⟩
      | some b =>
        cases b with
        | true => rfl
        | false => exact ih ⟨p, h, hmp⟩

/-- C8: `useProxy` returns false when `NO_PROXY` is "*" (for every
nonempty address), when the host part is "localhost" or a loopback IP,
and when some comma-separated `NO_PROXY` entry matches the stripped,
lowercased request host — exactly or, for an entry starting with a dot,
as a suffix or as the entry without its leading dot; in particular
`NO_PROXY=.example.com` excludes `x.example.com` and `example.com` but
not `notexample.com`. -/
theorem useProxy_exclusions (lb : String → Bool) (np addr host port : String) :
    (addr ≠ "" → useProxy lb "*" addr = false)
    ∧ (splitHostPort addr = some (host, port) → host = "localhost" →
        useProxy lb np addr = false)
    ∧ (splitHostPort addr = some (host, port) → lb host = true →
        useProxy lb np addr = false)
    ∧ (addr ≠ "" → splitHostPort addr = some (host, port) → host ≠ "localhost" →
        lb host = false → np ≠ "*" →
        (∃ p ∈ strSplitComma np, entryMatches (hostKey addr) p = some true) →
        useProxy lb np addr = false)
    ∧ useProxy (fun _ => false) ".example.com" "x.example.com:80" = false
    ∧ useProxy (fun _ => false) ".example.com" "example.com:80" = false
    ∧ useProxy (fun _ => false) ".example.com" "notexample.com:80" = true := by
  refine ⟨?_, ?_, ?_, ?_, rfl, rfl, rfl⟩
  · intro ha
    unfold useProxy
    rw [strLen_beq_zero_false addr ha]
    simp only [Bool.false_eq_true, if_false]
    cases hsp : splitHostPort addr with
    | none => rfl
    | some pr =>
      obtain ⟨h, p⟩ := pr
      by_cases h1 : (h == "localhost") = true
      · simp [h1]
      · by_cases h2 : lb h = true
        · simp [h1, h2]
        · simp [h1, h2]
  · intro hsp hloc
    have ha : addr ≠ "" := by
      intro he
      rw [he] at hsp
      have hnone : splitHostPort "" = none := rfl
      rw [hnone] at hsp
      exact Option.noConfusion hsp
    unfold useProxy
    rw [strLen_beq_zero_false addr ha]
    simp only [Bool.false_eq_true, if_false]
    rw [hsp, hloc]
    simp
  · intro hsp hlb
    have ha : addr ≠ "" := by
      intro he
      rw [he] at hsp
      have hnone : splitHostPort "" = none := rfl
      rw [hnone] at hsp
      exact Option.noConfusion hsp
    unfold useProxy
    rw [strLen_beq_zero_false addr ha]
    simp only [Bool.false_eq_true, if_false]
    rw [hsp]
    by_cases h1 : (host == "localhost") = true
    · simp [h1]
    · simp [h1, hlb]
  · intro ha hsp hloc hlb hnp hmatch
    unfold useProxy
    rw [strLen_beq_zero_false addr ha]
    simp only [Bool.false_eq_true, if_false]
    rw [hsp]
    have h1 : (host == "localhost") = false := beq_eq_false_iff_ne.2 hloc
    have h2 : (np == "*") = false := beq_eq_false_iff_ne.2 hnp
    simp only [h1, Bool.false_eq_true, if_false, hlb, h2]
    exact noProxyLoop_false_of_match (hostKey addr) (strSplitComma np) hmatch

/-- Witness for C8: the exclusion theorem applied at concrete values —
`NO_PROXY=*` with a nonempty address, a localhost address, a loopback
address with the loopback test returning true, and a dot entry matching
a subdomain. -/
theorem useProxy_exclusions_witness :
    useProxy (fun _ => false) "*" "example.com:80" = false
    ∧ useProxy (fun _ => false) "" "localhost:8080" = false
    ∧ useProxy (fun _ => true) "" "127.0.0.1:80" = false
    ∧ useProxy (fun _ => false) ".example.com" "x.example.com:80" = false := by
  refine ⟨?_, ?_, ?_, ?_⟩
  · exact (useProxy_exclusions (fun _ => false) "" "example.com:80" "example.com" "80").1
      (by decide)
  · exact (useProxy_exclusions (fun _ => false) "" "localhost:8080" "localhost" "8080").2.1
      rfl rfl
  · exact (useProxy_exclusions (fun _ => true) "" "127.0.0.1:80" "127.0.0.1" "80").2.2.1
      rfl rfl
  · exact (useProxy_exclusions (fun _ => false) ".example.com" "x.example.com:80"
      "x.example.com" "80").2.2.2.1 (by decide) rfl (by decide) rfl (by decide)
      ⟨".example.com", by
        rw [show strSplitComma ".example.com" = [".example.com"] from rfl]
        exact List.mem_singleton.2 rfl, rfl⟩

/-- A successful pop from the idle queue never yields a broken
connection. -/
theorem popIdle_some_not_broken (l : List PoolConn) (c : PoolConn) (rest : List PoolConn)
    (h : popIdle l = (some c, rest)) : c.broken = false := by
  induction l generalizing rest with
  | nil =>
    simp [popIdle] at h
  | cons a as ih =>
    unfold popIdle at h
    cases hb : a.broken with
    | false =>
      rw [hb] at h
      simp at h
      rw [← h.1]
      exact hb
    | true =>
      rw [hb] at h
      simp at h
      exact ih rest h

/-- Every entry of `poolSet pool key q` is either an entry of `pool` or
the new `(key, q)` entry. -/
theorem mem_poolSet (pool : IdlePool) (key : String) (q : List PoolConn)
    (kv : String × List PoolConn) (h : kv ∈ poolSet pool key q) :
    kv ∈ pool ∨ kv = (key, q) := by
  unfold poolSet at h
  by_cases hf : (pool.find? (fun kv => kv.1 == key)).isSome = true
  · rw [if_pos hf] at h
    obtain ⟨kv0, hkv0, heq⟩ := List.mem_map.1 h
    by_cases hk : (kv0.1 == key) = true
    · right
      rw [← heq, if_pos hk]
      rw [beq_iff_eq.1 hk]
    · left
      rw [← heq, if_neg hk]
      exact hkv0
  · rw [if_neg hf] at h
    cases List.mem_append.1 h with
    | inl h1 => exact Or.inl h1
    | inr h2 => exact Or.inr (List.mem_singleton.1 h2)

/-- A per-key queue is either empty (absent key) or the queue of an
entry of the pool. -/
theorem poolLookup_cases (pool : IdlePool) (key : String) :
    poolLookup pool key = [] ∨ ∃ kv ∈ pool, kv.2 = poolLookup pool key := by
  unfold poolLookup
  cases hf : pool.find? (fun kv => kv.1 == key) with
  | none => exact Or.inl rfl
  | some kv => exact Or.inr ⟨kv, List.mem_of_find?_eq_some hf, rfl⟩

/-- C9: the idle pool policy — `putIdleConn` refuses a broken
connection (pool unchanged, not closed), refuses and closes when
keep-alives are disabled or the max-idle setting is negative, refuses
and closes when the per-key queue is full, and otherwise appends; the
effective bound is `DefaultMaxIdleConnsPerHost = 2` when the setting is
zero; the invariant "no pooled connection is broken and every queue is
within the bound" is preserved; and `getIdleConn` never returns a
broken connection and pops the most recently returned one first. -/
theorem idlePool_policy (t : TransportCfg) (pool : IdlePool) (pconn c : PoolConn)
    (key : String) (q : List PoolConn) :
    (pconn.broken = true → (putIdleConn t pool pconn).accepted = false
        ∧ (putIdleConn t pool pconn).pool = pool)
    ∧ (t.disableKeepAlives = true →
        putIdleConn t pool pconn = ⟨false, pool, true⟩)
    ∧ (t.maxIdleConnsPerHost < 0 →
        putIdleConn t pool pconn = ⟨false, pool, true⟩)
    ∧ (t.disableKeepAlives = false → 0 ≤ t.maxIdleConnsPerHost → pconn.broken = false →
        effectiveMaxIdle t ≤ ((poolLookup pool pconn.cacheKey).length : Int) →
        putIdleConn t pool pconn = ⟨false, pool, true⟩)
    ∧ (t.disableKeepAlives = false → 0 ≤ t.maxIdleConnsPerHost → pconn.broken = false →
        ((poolLookup pool pconn.cacheKey).length : Int) < effectiveMaxIdle t →
        putIdleConn t pool pconn =
          ⟨true, poolSet pool pconn.cacheKey (poolLookup pool pconn.cacheKey ++ [pconn]), false⟩)
    ∧ (t.maxIdleConnsPerHost = 0 → effectiveMaxIdle t = 2)
    ∧ (poolConnsOk (effectiveMaxIdle t) pool →
        poolConnsOk (effectiveMaxIdle t) (putIdleConn t pool pconn).pool)
    ∧ ((getIdleConn pool key).1 = some c → c.broken = false)
    ∧ (poolLookup pool key = q ++ [c] → c.broken = false →
        getIdleConn pool key = (some c, poolSet pool key q)) := by
  refine ⟨?_, ?_, ?_, ?_, ?_, ?_, ?_, ?_, ?_⟩
  · intro hb
    unfold putIdleConn
    by_cases h1 : (t.disableKeepAlives || decide (t.maxIdleConnsPerHost < 0)) = true
    · rw [if_pos h1]
      exact ⟨rfl, rfl⟩
    · rw [if_neg h1]
      simp [hb]
  · intro hd
    unfold putIdleConn
    rw [hd]
    simp
  · intro hneg
    unfold putIdleConn
    have : (t.disableKeepAlives || decide (t.maxIdleConnsPerHost < 0)) = true := by
      simp [hneg]
    rw [if_pos this]
  · intro hd hge hb hfull
    unfold putIdleConn
    have h1 : (t.disableKeepAlives || decide (t.maxIdleConnsPerHost < 0)) = false := by
      simp [hd, Int.not_lt.2 hge]
    rw [h1, hb]
    simp only [Bool.false_eq_true, if_false]
    rw [if_pos hfull]
  · intro hd hge hb hroom
    unfold putIdleConn
    have h1 : (t.disableKeepAlives || decide (t.maxIdleConnsPerHost < 0)) = false := by
      simp [hd, Int.not_lt.2 hge]
    rw [h1, hb]
    simp only [Bool.false_eq_true, if_false]
    rw [if_neg (Int.not_le.2 hroom)]
  · intro h0
    unfold effectiveMaxIdle
    rw [h0]
    rfl
  · intro hok
    unfold putIdleConn
    by_cases h1 : (t.disableKeepAlives || decide (t.maxIdleConnsPerHost < 0)) = true
    · rw [if_pos h1]
      exact hok
    · rw [if_neg h1]
      cases hb : pconn.broken with
      | true =>
        simp only [if_true]
        exact hok
      | false =>
        simp only [Bool.false_eq_true, if_false]
        by_cases hfull : ((poolLookup pool pconn.cacheKey).length : Int) ≥ effectiveMaxIdle t
        · rw [if_pos hfull]
          exact hok
        · rw [if_neg hfull]
          intro kv hkv
          cases mem_poolSet pool pconn.cacheKey
              (poolLookup pool pconn.cacheKey ++ [pconn]) kv hkv with
          | inl hin => exact hok kv hin
          | inr hnew =>
            have hqok : ∀ x ∈ poolLookup pool pconn.cacheKey, x.broken = false := by
              cases poolLookup_cases pool pconn.cacheKey with
              | inl he =>
                rw [he]
                intro x hx
                exact absurd hx (List.not_mem_nil x)
              | inr hex =>
                obtain ⟨kv0, hkv0, hq0⟩ := hex
                rw [← hq0]
                exact (hok kv0 hkv0).1
            have hqlen : ((poolLookup pool pconn.cacheKey).length : Int) < effectiveMaxIdle t :=
              Int.not_le.1 hfull
            rw [hnew]
            constructor
            · intro x hx
              cases List.mem_append.1 hx with
              | inl h => exact hqok x h
              | inr h =>
                rw [List.mem_singleton.1 h]
                exact hb
            · rw [List.length_append, List.length_singleton]
              push_cast
              omega
  · intro hg
    unfold getIdleConn at hg
    cases hpop : popIdle (poolLookup pool key).reverse with
    | mk r rest =>
      rw [hpop] at hg
      simp at hg
      rw [hg] at hpop
      exact popIdle_some_not_broken _ c rest hpop
  · intro hq hb
    unfold getIdleConn
    rw [hq, List.reverse_append, List.reverse_singleton]
    simp only [List.singleton_append]
    unfold popIdle
    rw [hb]
    simp only [Bool.not_false, if_true, List.reverse_reverse]

/-- Witness for C9: the pool policy theorem applied at concrete
configurations — a broken connection is refused, a full queue closes the
incoming connection, a fresh connection is appended, and `getIdleConn`
pops the most recent non-broken connection. -/
theorem idlePool_policy_witness :
    (putIdleConn ⟨false, 0⟩ [] ⟨1, "k", true⟩).accepted = false
    ∧ putIdleConn ⟨true, 0⟩ [] ⟨1, "k", false⟩ = ⟨false, [], true⟩
    ∧ putIdleConn ⟨false, 0⟩ [("k", [⟨1, "k", false⟩, ⟨2, "k", false⟩])] ⟨3, "k", false⟩ =
        ⟨false, [("k", [⟨1, "k", false⟩, ⟨2, "k", false⟩])], true⟩
    ∧ putIdleConn ⟨false, 0⟩ [] ⟨1, "k", false⟩ = ⟨true, [("k", [⟨1, "k", false⟩])], false⟩
    ∧ getIdleConn [("k", [⟨1, "k", false⟩, ⟨2, "k", false⟩])] "k" =
        (some ⟨2, "k", false⟩, [("k", [⟨1, "k", false⟩])]) := by
  refine ⟨?_, ?_, ?_, ?_, ?_⟩
  · exact ((idlePool_policy ⟨false, 0⟩ [] ⟨1, "k", true⟩ ⟨1, "k", true⟩ "k" []).1 rfl).1
  · exact (idlePool_policy ⟨true, 0⟩ [] ⟨1, "k", false⟩ ⟨1, "k", false⟩ "k" []).2.1 rfl
  · exact (idlePool_policy ⟨false, 0⟩ [("k", [⟨1, "k", false⟩, ⟨2, "k", false⟩])]
      ⟨3, "k", false⟩ ⟨3, "k", false⟩ "k" []).2.2.2.1 rfl (by decide) rfl (by decide)
  · exact (idlePool_policy ⟨false, 0⟩ [] ⟨1, "k", false⟩ ⟨1, "k", false⟩ "k" []).2.2.2.2.1
      rfl (by decide) rfl (by decide)
  · exact (idlePool_policy ⟨false, 0⟩ [("k", [⟨1, "k", false⟩, ⟨2, "k", false⟩])]
      ⟨1, "k", false⟩ ⟨2, "k", false⟩ "k" [⟨1, "k", false⟩]).2.2.2.2.2.2.2.2 rfl rfl

/-- Storing a certificate for a hostname makes a later lookup of that
hostname hit. -/
theorem certLookup_append_self (cache : CertCache) (host : String) (cert : Nat)
    (hmiss : certLookup cache host = none) :
    certLookup (cache ++ [(host, cert)]) host = some cert := by
  unfold certLookup at hmiss ⊢
  rw [List.find?_append]
  cases hf : cache.find? (fun kv => kv.1 == host) with
  | none =>
    simp [List.find?_cons]
  | some kv =>
    rw [hf] at hmiss
    exact absurd hmiss (by simp)

/-- Once the lookup hits, repeated fetches never call the generator. -/
theorem certFetchN_hit (k : Nat) (cache : CertCache) (host : String)
    (gen : Except String Nat) (hhit : (certLookup cache host).isSome = true) :
    (certFetchN k cache host gen).2 = 0 := by
  induction k with
  | zero => rfl
  | succ k ih =>
    unfold certFetchN certFetch
    cases hl : certLookup cache host with
    | none =>
      rw [hl] at hhit
      exact absurd hhit (by simp)
    | some cert =>
      simp only []
      rw [ih]
      simp

/-- C10: `CertStorage.Fetch` returns a cached certificate without
calling the generator; on a miss it calls the generator, memoizes the
certificate on success, and on failure returns the error with the cache
unchanged (so the next fetch calls the generator again); over `k`
sequential fetches of one hostname a succeeding generator runs at most
once. -/
theorem certStorage_fetch_memoizes (cache : CertCache) (host : String)
    (gen : Except String Nat) (cert : Nat) (e : String) (k : Nat) :
    (certLookup cache host = some cert → certFetch cache host gen = (.ok cert, cache, false))
    ∧ (certLookup cache host = none → gen = .ok cert →
        certFetch cache host gen = (.ok cert, cache ++ [(host, cert)], true))
    ∧ (certLookup cache host = none → gen = .error e →
        certFetch cache host gen = (.error e, cache, true))
    ∧ (certLookup cache host = none → (certFetch cache host gen).2.2 = true)
    ∧ (gen = .ok cert → (certFetchN k cache host gen).2 ≤ 1) := by
  refine ⟨?_, ?_, ?_, ?_, ?_⟩
  · intro hhit
    unfold certFetch
    rw [hhit]
  · intro hmiss hok
    unfold certFetch
    rw [hmiss, hok]
  · intro hmiss herr
    unfold certFetch
    rw [hmiss, herr]
  · intro hmiss
    unfold certFetch
    rw [hmiss]
    cases gen with
    | error e => rfl
    | ok cert => rfl
  · intro hok
    cases k with
    | zero => exact Nat.zero_le 1
    | succ k =>
      unfold certFetchN certFetch
      cases hl : certLookup cache host with
      | some c0 =>
        simp only []
        rw [certFetchN_hit k cache host gen (by rw [hl]; rfl)]
        simp
      | none =>
        rw [hok]
        simp only []
        rw [certFetchN_hit k (cache ++ [(host, cert)]) host (.ok cert)
          (by rw [certLookup_append_self cache host cert hl]; rfl)]
        simp

/-- Witness for C10: a hit returns the cached certificate without
calling the generator, a miss memoizes, a failing generator leaves the
cache unchanged, and three sequential fetches call the generator once. -/
theorem certStorage_fetch_memoizes_witness :
    certFetch [("example.com", 5)] "example.com" (.ok 9) = (.ok 5, [("example.com", 5)], false)
    ∧ certFetch [] "example.com" (.ok 9) = (.ok 9, [("example.com", 9)], true)
    ∧ certFetch [] "example.com" (.error "boom") = (.error "boom", [], true)
    ∧ (certFetchN 3 [] "example.com" (.ok 9)).2 ≤ 1 := by
  refine ⟨?_, ?_, ?_, ?_⟩
  · exact (certStorage_fetch_memoizes [("example.com", 5)] "example.com" (.ok 9) 5 "x" 0).1 rfl
  · exact (certStorage_fetch_memoizes [] "example.com" (.ok 9) 9 "x" 0).2.1 rfl rfl
  · exact (certStorage_fetch_memoizes [] "example.com" (.error "boom") 0 "boom" 0).2.2.1 rfl rfl
  · exact (certStorage_fetch_memoizes [] "example.com" (.ok 9) 9 "x" 3).2.2.2.2 rfl
